import Mathlib

/-!
Verification development for the citation-network analytics core of pyscisci
(`pyscisci/metrics/publication.py`).

Modelling conventions:
* A row of the `pub2ref` citation table is a `RefRow` with the columns
  CitingPublicationId, CitedPublicationId, CitingYear; ids and years are naturals.
* A row of the `pub2author` table is a pair (PublicationId, AuthorId).
* pandas DataFrames are lists of rows (order and duplicates kept);
  Python float arithmetic is modelled as exact rational arithmetic over ℚ.
* Python `None` results and vector entries are modelled with `Option`.
* `pyscisci.network.cocitation_network` and the small helpers from
  `pyscisci.utils` are not among the provided source files; where they are
  needed they are modelled from the spec (sections 4.1-4.3), as marked in the
  doc comments of the corresponding definitions.
-/

/-- A row of the pub2ref citation table: (CitingPublicationId,
CitedPublicationId, CitingYear). -/
structure RefRow where
  citing : Nat
  cited : Nat
  citingYear : Nat
deriving DecidableEq

/-- pandas `citation_groups.get_group(p).values` from `disruption_index`:
the CitingPublicationId entries of all rows whose CitedPublicationId is `p`,
duplicates and table order kept.  `get_group` raises `KeyError` exactly when
this list is empty. -/
def citersOf (pub2ref : List RefRow) (p : Nat) : List Nat :=
  (pub2ref.filter (fun e => e.cited == p)).map RefRow.citing

/-- pandas `reference_groups.get_group(p)` from `disruption_index`:
the CitedPublicationId entries of all rows whose CitingPublicationId is `p`. -/
def refsOf (pub2ref : List RefRow) (p : Nat) : List Nat :=
  (pub2ref.filter (fun e => e.citing == p)).map RefRow.cited

/-- The dict `cite2ref` of `disruption_index`: the distinct citers of the
focus publication's references (a membership map keyed by citer id). -/
def refCiterPool (pub2ref : List RefRow) (p : Nat) : List Nat :=
  ((refsOf pub2ref p).flatMap (fun r => citersOf pub2ref r)).dedup

/-- `nj = sum(cite2ref.get(pid, 0) for pid in citing_focus.values)`:
entries of the citing list (with multiplicity) that appear in the pool. -/
def njOf (pub2ref : List RefRow) (p : Nat) : Int :=
  (((citersOf pub2ref p).filter
    (fun c => (refCiterPool pub2ref p).contains c)).length : Int)

/-- `ni = citing_focus.shape[0] - nj`. -/
def niOf (pub2ref : List RefRow) (p : Nat) : Int :=
  ((citersOf pub2ref p).length : Int) - njOf pub2ref p

/-- `nk = len(cite2ref) - nj`. -/
def nkOf (pub2ref : List RefRow) (p : Nat) : Int :=
  ((refCiterPool pub2ref p).length : Int) - njOf pub2ref p

/-- The denominator `ni + nj + nk` of the CD fraction in `disruption_index`. -/
def disruptionDenom (pub2ref : List RefRow) (p : Nat) : Int :=
  niOf pub2ref p + njOf pub2ref p + nkOf pub2ref p

/-- The inner per-publication function `disruption_index(focusid)`: `none`
models the `return None` taken on the `KeyError` raised when the focus
publication has an empty reference group or an empty citation group; otherwise
the value is `float(ni - nj)/(ni + nj + nk)`. -/
def disruptionOne (pub2ref : List RefRow) (p : Nat) : Option ℚ :=
  if refsOf pub2ref p = [] then none
  else if citersOf pub2ref p = [] then none
  else some (((niOf pub2ref p - njOf pub2ref p : Int) : ℚ) /
    ((disruptionDenom pub2ref p : Int) : ℚ))

/-- The driver list comprehension of `disruption_index`: one `[focusciting,
disruption_index(focusciting)]` row per requested focus publication passing the
filter `get_citation_groups(focusciting).shape[0] > 0`. -/
def disruption_index (pub2ref : List RefRow) (focus_pubs : List Nat) :
    List (Nat × Option ℚ) :=
  (focus_pubs.filter (fun p => !(citersOf pub2ref p).isEmpty)).map
    (fun p => (p, disruptionOne pub2ref p))

/-- Modelled from the spec, section 4.4 wording of the claim: nj as the number
of distinct citers of the focus (the set `C`) found in the distinct
reference-citer pool via the membership map. -/
def cdSpecNj (pub2ref : List RefRow) (p : Nat) : Int :=
  ((((citersOf pub2ref p).dedup).filter
    (fun c => (refCiterPool pub2ref p).contains c)).length : Int)

/-- Modelled from the spec: ni = |C| - nj. -/
def cdSpecNi (pub2ref : List RefRow) (p : Nat) : Int :=
  (((citersOf pub2ref p).dedup).length : Int) - cdSpecNj pub2ref p

/-- Modelled from the spec: nk = |reference-citer pool| - nj. -/
def cdSpecNk (pub2ref : List RefRow) (p : Nat) : Int :=
  ((refCiterPool pub2ref p).length : Int) - cdSpecNj pub2ref p

/-- Modelled from the spec, section 4.4 wording of the claim: the set-based CD
formula (ni - nj)/(ni + nj + nk), for comparison with `disruptionOne`. -/
def cdSpecFormula (pub2ref : List RefRow) (p : Nat) : ℚ :=
  ((cdSpecNi pub2ref p - cdSpecNj pub2ref p : Int) : ℚ) /
    ((cdSpecNi pub2ref p + cdSpecNj pub2ref p + cdSpecNk pub2ref p : Int) : ℚ)

/-- The well-formedness condition "no duplicate edges" for a citation table:
no two rows carry the same (CitingPublicationId, CitedPublicationId) pair. -/
abbrev NoDupEdges (pub2ref : List RefRow) : Prop :=
  (pub2ref.map (fun e => (e.citing, e.cited))).Nodup

/-- `np.sort(... .unique())`: the distinct values of a column, sorted
ascending. -/
def sortedUnique (l : List Nat) : List Nat :=
  List.insertionSort (fun a b => a ≤ b) l.dedup

/-- The focus publication's author list in `credit_share`:
`np.sort(pub2author_df.loc[pub2author_df.PublicationId == focus].AuthorId.unique())`.
Also used for the per-cocited-publication author sets taken from `pa_df`. -/
def authorsOfPub (pub2author : List (Nat × Nat)) (p : Nat) : List Nat :=
  sortedUnique ((pub2author.filter (fun r => r.1 == p)).map Prod.snd)

/-- Whether publication `c` cites publication `i` (some row (c, i, _)). -/
def citesPub (pub2ref : List RefRow) (c i : Nat) : Bool :=
  pub2ref.any (fun e => e.citing == c && e.cited == i)

/-- Whether publication `c` cites publication `i` with CitingYear `y`. -/
def citesPubInYear (pub2ref : List RefRow) (c i y : Nat) : Bool :=
  pub2ref.any (fun e => e.citing == c && e.cited == i && e.citingYear == y)

/-- The distinct citers of the focus publication (the ego restriction set of
spec section 4.2, and the `nunique` citer count used in `credit_share`). -/
def egoCiters (pub2ref : List RefRow) (focus : Nat) : List Nat :=
  (citersOf pub2ref focus).dedup

/-- Modelled from the spec, section 4.2: in `egocited` mode the co-citation
grouping is restricted to the edges whose citing publication is a citer of
the focus publication (`cocitation_network` lives in `pyscisci/network.py`,
which is not among the provided source files). -/
def egoEdges (pub2ref : List RefRow) (focus : Nat) : List RefRow :=
  pub2ref.filter (fun e => citesPub pub2ref e.citing focus)

/-- Modelled from the spec, section 4.2: the cited-axis key set of the ego
co-citation network (`cited2int.keys()`), sorted as `cocited_pubs` is in
`credit_share`. -/
def egoCocitedPubs (pub2ref : List RefRow) (focus : Nat) : List Nat :=
  sortedUnique ((egoEdges pub2ref focus).map RefRow.cited)

/-- Modelled from the spec, sections 4.2 and the glossary: the static ego
co-citation weight of cited publications `i` and `j` is the number of distinct
citers of the focus citing both `i` and `j`; for `i = j` this is the direct
citation count placed on the diagonal. -/
def egoCociteWeight (pub2ref : List RefRow) (focus i j : Nat) : Nat :=
  ((egoCiters pub2ref focus).filter
    (fun c => citesPub pub2ref c i && citesPub pub2ref c j)).length

/-- One entry of `credit_allocation_mat`: a focus author `a` receives
`1/nunique(authors of q)` in the column of cocited publication `q` when `a`
is an author of `q`, and `0` otherwise. -/
def creditAllocEntry (pub2author : List (Nat × Nat)) (a q : Nat) : ℚ :=
  if a ∈ authorsOfPub pub2author q then
    1 / ((authorsOfPub pub2author q).length : ℚ)
  else 0

/-- The static flow vector `cocite_counts` of `credit_share`: the focus row of
the ego co-citation matrix, with the focus entry overwritten by the number of
distinct citers of the focus publication. -/
def egoFlowStatic (pub2ref : List RefRow) (focus q : Nat) : ℚ :=
  if q == focus then ((egoCiters pub2ref focus).length : ℚ)
  else ((egoCociteWeight pub2ref focus focus q : Nat) : ℚ)

/-- One entry of `credit_allocation_mat.dot(cocite_counts.T)` in the static
branch of `credit_share`: the raw credit of focus author `a`. -/
def rawCreditStatic (pub2ref : List RefRow) (pub2author : List (Nat × Nat))
    (focus a : Nat) : ℚ :=
  ((egoCocitedPubs pub2ref focus).map
    (fun q => creditAllocEntry pub2author a q * egoFlowStatic pub2ref focus q)).sum

/-- The static (`temporal=False`) branch of `credit_share`.  The result pairs
the per-author credit vector (ordered like the sorted focus author list, which
is also returned, standing for `author2int`) with that author list.  `none`
models the implicit `return None` of the Python function when the focus
publication has no author rows (`focus_authors.shape[0]` is neither `> 1` nor
`== 1`); vector entries of `none` model the `np.array([None, ...])` returned
when the ego co-citation network is empty.  The division by
`credit_share.sum(axis=0)` under `normed` is unguarded, as in the source. -/
def credit_share_static (focus : Nat) (pub2ref : List RefRow)
    (pub2author : List (Nat × Nat)) (normed : Bool) :
    Option (List (Option ℚ) × List Nat) :=
  let fa := authorsOfPub pub2author focus
  if 1 < fa.length then
    if 0 < (egoCocitedPubs pub2ref focus).length then
      let raw := fa.map (fun a => rawCreditStatic pub2ref pub2author focus a)
      let credit := if normed then raw.map (fun x => x / raw.sum) else raw
      some (credit.map (fun x => some x), fa)
    else
      some (fa.map (fun _ => (none : Option ℚ)), fa)
  else if fa.length = 1 then
    some ([some 1], fa)
  else
    none

/-- `np.sort(pub2ref_df.loc[pub2ref_df.CitedPublicationId == focus].CitingYear.unique())`:
the distinct citing years of the focus publication's citations. -/
def focusCitationYears (pub2ref : List RefRow) (focus : Nat) : List Nat :=
  sortedUnique ((pub2ref.filter (fun e => e.cited == focus)).map RefRow.citingYear)

/-- The distinct citers of the focus publication whose citing year is `y`
(the per-year unique count `focus_citations[y]` of `credit_share`). -/
def focusCitersInYear (pub2ref : List RefRow) (focus y : Nat) : List Nat :=
  ((pub2ref.filter (fun e => e.cited == focus && e.citingYear == y)).map
    RefRow.citing).dedup

/-- Modelled from the spec, section 4.2: in temporal mode the ego co-citation
network is built independently per citing year; its key set (`adj_mat.keys()`,
sorted as in `credit_share`) is the set of citing years occurring among the
ego-restricted edges. -/
def egoYears (pub2ref : List RefRow) (focus : Nat) : List Nat :=
  sortedUnique ((egoEdges pub2ref focus).map RefRow.citingYear)

/-- Modelled from the spec, section 4.2: the year-`y` ego co-citation weight of
`i` and `j` counts the distinct citers of the focus citing both `i` and `j`
with citing year `y`. -/
def egoCociteWeightYear (pub2ref : List RefRow) (focus y i j : Nat) : Nat :=
  ((egoCiters pub2ref focus).filter
    (fun c => citesPubInYear pub2ref c i y && citesPubInYear pub2ref c j y)).length

/-- Row `iy` of the temporal `cocite_counts` before the cumulative sum: the
focus row of the year-`y` ego co-citation matrix with the focus entry
overwritten by `focus_citations[y]`. -/
def egoFlowYear (pub2ref : List RefRow) (focus y q : Nat) : ℚ :=
  if q == focus then ((focusCitersInYear pub2ref focus y).length : ℚ)
  else ((egoCociteWeightYear pub2ref focus y focus q : Nat) : ℚ)

/-- The cumulative flow `cocite_counts.cumsum(axis=0)` of `credit_share`,
evaluated at cocited publication `q`, summed over a prefix `ys` of the sorted
year list. -/
def egoFlowCumul (pub2ref : List RefRow) (focus : Nat) (ys : List Nat)
    (q : Nat) : ℚ :=
  (ys.map (fun y => egoFlowYear pub2ref focus y q)).sum

/-- One entry of `credit_allocation_mat.dot(cocite_counts.T)` in the temporal
branch: the raw credit of focus author `a` accumulated over the year prefix
`ys`. -/
def rawCreditTemporal (pub2ref : List RefRow) (pub2author : List (Nat × Nat))
    (focus : Nat) (ys : List Nat) (a : Nat) : ℚ :=
  ((egoCocitedPubs pub2ref focus).map
    (fun q => creditAllocEntry pub2author a q *
      egoFlowCumul pub2ref focus ys q)).sum

/-- One year-column of the temporal credit matrix: the per-author raw credits
for the year prefix `ys`, divided (when `normed`) by the column sum, exactly
like `credit_share/credit_share.sum(axis=0)` does column-wise. -/
def creditColumn (pub2ref : List RefRow) (pub2author : List (Nat × Nat))
    (focus : Nat) (normed : Bool) (ys : List Nat) : List ℚ :=
  let raw := (authorsOfPub pub2author focus).map
    (fun a => rawCreditTemporal pub2ref pub2author focus ys a)
  if normed then raw.map (fun x => x / raw.sum) else raw

/-- The temporal (`temporal=True`) branch of `credit_share`.  The (k, Nyears)
credit matrix of the source is represented year-major: the outer list ranges
over the sorted year list (also returned, with the author list standing for
`author2int`), the inner list over the sorted focus authors, so the source's
column division `credit_share.sum(axis=0)` is the inner-list normalization of
`creditColumn`.  The branch reading `focus_citations[y]` raises an uncaught
`KeyError` when some ego-network year has no direct citation to the focus
publication; `none` models both that non-returning execution and the implicit
`return None` for a focus publication with no author rows. -/
def credit_share_temporal (focus : Nat) (pub2ref : List RefRow)
    (pub2author : List (Nat × Nat)) (normed : Bool) :
    Option (List (List (Option ℚ)) × List Nat × List Nat) :=
  let fa := authorsOfPub pub2author focus
  if 1 < fa.length then
    if 0 < (egoCocitedPubs pub2ref focus).length then
      let ys := egoYears pub2ref focus
      if ys.all (fun y => !(focusCitersInYear pub2ref focus y).isEmpty) then
        some ((List.range ys.length).map
          (fun iy => (creditColumn pub2ref pub2author focus normed
            (ys.take (iy + 1))).map (fun x => some x)), fa, ys)
      else none
    else
      some ((focusCitationYears pub2ref focus).map
        (fun _ => fa.map (fun _ => (none : Option ℚ))), fa,
        focusCitationYears pub2ref focus)
  else if fa.length = 1 then
    some ((focusCitationYears pub2ref focus).map (fun _ => [some 1]), fa,
      focusCitationYears pub2ref focus)
  else
    none

/-- The batch row bound `10**6` of the non-temporal accumulation loop of
`field_citation_distance`. -/
def staticBatchLimit : Nat := 10 ^ 6

/-- The multiset of table rows processed by the non-temporal batching loop of
`field_citation_distance`: `nref = int(len/10**6) + 1` iterations, each taking
`pub2ref_df.loc[0*10**6:(0+1)*10**6]`, i.e. (label slicing being inclusive on
a default integer index) the first `10**6 + 1` rows, with the slice bounds not
depending on the loop variable `itab`.  Each processed row's field-pair
contribution is added into the running field-by-field accumulator. -/
def staticBatchProcessedRows {α : Type} (rows : List α) : List α :=
  let nref := rows.length / staticBatchLimit + 1
  (List.range nref).flatMap (fun _ => rows.take (staticBatchLimit + 1))

/-- The caller-supplied `distance_matrix` argument forms distinguished by the
type-dispatch of `raostriling_interdisciplinarity` (after the `None` default
has been replaced by a computed DataFrame): a pandas DataFrame, a numpy
ndarray with its shape, or a `np.matrix` with its shape. -/
inductive DistMatrixArg where
  | dataframe
  | ndarray (shape : List Nat)
  | npmatrix (shape : List Nat)
deriving DecidableEq

/-- Whether `type(distance_matrix) == pd.DataFrame` holds. -/
def typeEqDataFrame : DistMatrixArg → Bool
  | .dataframe => true
  | _ => false

/-- Whether `type(distance_matrix) == np.array` holds in Python: `np.array`
is a factory function, not a class, so no object's type is equal to it; in
particular a numpy ndarray has type `np.ndarray`, not `np.array`, and this
comparison is False for every argument. -/
def typeEqNpArray : DistMatrixArg → Bool := fun _ => false

/-- Whether `type(distance_matrix) == np.matrix` holds: true exactly for
`np.matrix` instances. -/
def typeEqNpMatrix : DistMatrixArg → Bool
  | .npmatrix _ => true
  | _ => false

/-- The shape tuple of an array-like argument (empty for a DataFrame, whose
branch never reads it). -/
def dmShape : DistMatrixArg → List Nat
  | .ndarray s => s
  | .npmatrix s => s
  | .dataframe => []

/-- The precomputed-distance-matrix validation of
`raostriling_interdisciplinarity` (the `if/elif` chain dispatching on
`type(distance_matrix)`): `true` when `pySciSciMetricError` is raised for a
wrong-shaped matrix, `false` when execution proceeds to use the matrix. -/
def raoShapeCheckRaises (temporal : Bool) (nyears nfields : Nat)
    (dm : DistMatrixArg) : Bool :=
  if typeEqDataFrame dm then false
  else if typeEqNpArray dm || typeEqNpMatrix dm then
    if !temporal && !(dmShape dm == [nfields, nfields]) then true
    else if temporal && !(dmShape dm == [nyears, nfields, nfields]) then true
    else false
  else false

/-- The Scenario B citation table: publications 101..105 cite the focus
publication 10 (five distinct citers), and 101 and 102 also cite the co-cited
publication 20 (co-citation weight 2). -/
def scenarioB_pub2ref : List RefRow :=
  [⟨101, 10, 0⟩, ⟨102, 10, 0⟩, ⟨103, 10, 0⟩, ⟨104, 10, 0⟩, ⟨105, 10, 0⟩,
    ⟨101, 20, 0⟩, ⟨102, 20, 0⟩]

/-- The Scenario B author table: the focus publication 10 has authors {1, 2},
the co-cited publication 20 has authors {1, 3}. -/
def scenarioB_pub2author : List (Nat × Nat) :=
  [(10, 1), (10, 2), (20, 1), (20, 3)]

/-! Helper lemmas. -/

lemma contains_iff {l : List Nat} {a : Nat} : l.contains a = true ↔ a ∈ l := by
  simp

lemma mem_citersOf {pub2ref : List RefRow} {p c : Nat} :
    c ∈ citersOf pub2ref p ↔ ∃ e ∈ pub2ref, e.citing = c ∧ e.cited = p := by
  simp only [citersOf, List.mem_map, List.mem_filter, beq_iff_eq]
  constructor
  · rintro ⟨e, ⟨he, hp⟩, hc⟩
    exact ⟨e, he, hc, hp⟩
  · rintro ⟨e, he, hc, hp⟩
    exact ⟨e, ⟨he, hp⟩, hc⟩

lemma citersOf_nodup {pub2ref : List RefRow} {p : Nat} (h : NoDupEdges pub2ref) :
    (citersOf pub2ref p).Nodup := by
  induction pub2ref with
  | nil => simp [citersOf]
  | cons e t ih =>
    simp only [NoDupEdges, List.map_cons, List.nodup_cons] at h
    by_cases hc : e.cited = p
    · have hstep : citersOf (e :: t) p = e.citing :: citersOf t p := by
        simp [citersOf, List.filter_cons, hc]
      rw [hstep, List.nodup_cons]
      refine ⟨?_, ih h.2⟩
      intro hmem
      rcases mem_citersOf.mp hmem with ⟨f, hf, hfc, hfp⟩
      exact h.1 (List.mem_map.mpr ⟨f, hf, by rw [hfc, hfp, hc]⟩)
    · have hstep : citersOf (e :: t) p = citersOf t p := by
        simp [citersOf, List.filter_cons, hc]
      rw [hstep]
      exact ih h.2

lemma disruptionDenom_pos (pub2ref : List RefRow) (p : Nat)
    (hc : citersOf pub2ref p ≠ []) : 0 < disruptionDenom pub2ref p := by
  have hlen : 0 < (citersOf pub2ref p).length := List.length_pos.mpr hc
  have hle : ((citersOf pub2ref p).filter
      (fun c => (refCiterPool pub2ref p).contains c)).length ≤
      (citersOf pub2ref p).length := List.length_filter_le _ _
  have hnj0 : (refCiterPool pub2ref p).length = 0 →
      ((citersOf pub2ref p).filter
        (fun c => (refCiterPool pub2ref p).contains c)).length = 0 := by
    intro h0
    have hnil : refCiterPool pub2ref p = [] := List.length_eq_zero.mp h0
    simp [hnil]
  simp only [disruptionDenom, niOf, njOf, nkOf]
  rcases Nat.eq_zero_or_pos (refCiterPool pub2ref p).length with h0 | hpos
  · have := hnj0 h0
    omega
  · omega

lemma disruptionOne_eval (pub2ref : List RefRow) (p : Nat) (x d : Int)
    (h1 : refsOf pub2ref p ≠ []) (h2 : citersOf pub2ref p ≠ [])
    (hx : niOf pub2ref p - njOf pub2ref p = x)
    (hd : disruptionDenom pub2ref p = d) :
    disruptionOne pub2ref p = some ((x : ℚ) / (d : ℚ)) := by
  rw [disruptionOne, if_neg h1, if_neg h2, hx, hd]

/-! Theorems for the claims about `disruption_index`. -/

/-- Claim C4: whenever the per-publication disruption computation reaches its
division (both the reference group and the citation group of the focus are
non-empty), the denominator `ni + nj + nk` is strictly positive — for any
input table, duplicate edges included — so the division is never executed
with a zero denominator, and the empty cases are surfaced as `none`. -/
theorem claim_C4_denominator_positive (pub2ref : List RefRow) (p : Nat)
    (h1 : refsOf pub2ref p ≠ []) (h2 : citersOf pub2ref p ≠ []) :
    0 < disruptionDenom pub2ref p ∧
      disruptionOne pub2ref p =
        some (((niOf pub2ref p - njOf pub2ref p : Int) : ℚ) /
          ((disruptionDenom pub2ref p : Int) : ℚ)) := by
  refine ⟨disruptionDenom_pos pub2ref p h2, ?_⟩
  rw [disruptionOne, if_neg h1, if_neg h2]

/-- Witness for claim C4: publication 1 cites 2 and is cited by 3, so both
groups are non-empty and the denominator is positive. -/
theorem claim_C4_witness :
    0 < disruptionDenom [⟨1, 2, 0⟩, ⟨3, 1, 0⟩] 1 :=
  (claim_C4_denominator_positive [⟨1, 2, 0⟩, ⟨3, 1, 0⟩] 1 (by decide) (by decide)).1

/-- Claim C5: on a table with no duplicate (citing, cited) pairs, the
disruption value is undefined exactly when the reference set or the citer set
of the focus is empty, and every defined value lies in [-1, 1]. -/
theorem claim_C5_range (pub2ref : List RefRow) (p : Nat) (hnd : NoDupEdges pub2ref) :
    (disruptionOne pub2ref p = none ↔
      refsOf pub2ref p = [] ∨ citersOf pub2ref p = []) ∧
      ∀ q : ℚ, disruptionOne pub2ref p = some q → -1 ≤ q ∧ q ≤ 1 := by
  constructor
  · unfold disruptionOne
    by_cases h1 : refsOf pub2ref p = [] <;>
      by_cases h2 : citersOf pub2ref p = [] <;> simp [h1, h2]
  · intro q hq
    by_cases h1 : refsOf pub2ref p = []
    · rw [disruptionOne, if_pos h1] at hq
      exact absurd hq (by simp)
    by_cases h2 : citersOf pub2ref p = []
    · rw [disruptionOne, if_neg h1, if_pos h2] at hq
      exact absurd hq (by simp)
    rw [disruptionOne, if_neg h1, if_neg h2] at hq
    have hqe := Option.some.inj hq
    have hd : 0 < disruptionDenom pub2ref p := disruptionDenom_pos pub2ref p h2
    have hdq : (0 : ℚ) < ((disruptionDenom pub2ref p : Int) : ℚ) := by
      exact_mod_cast hd
    have hnj : 0 ≤ njOf pub2ref p := by
      simp only [njOf]
      exact Int.natCast_nonneg _
    have hni : 0 ≤ niOf pub2ref p := by
      have hfl := List.length_filter_le
        (fun c => (refCiterPool pub2ref p).contains c) (citersOf pub2ref p)
      simp only [niOf, njOf]
      omega
    have hnk : 0 ≤ nkOf pub2ref p := by
      have hcn : (citersOf pub2ref p).Nodup := citersOf_nodup hnd
      have hfn : ((citersOf pub2ref p).filter
          (fun c => (refCiterPool pub2ref p).contains c)).Nodup := hcn.filter _
      have hsub : ((citersOf pub2ref p).filter
          (fun c => (refCiterPool pub2ref p).contains c)) ⊆ refCiterPool pub2ref p := by
        intro x hx
        exact contains_iff.mp (List.mem_filter.mp hx).2
      have hlen := (hfn.subperm hsub).length_le
      simp only [nkOf, njOf]
      omega
    have hsum : disruptionDenom pub2ref p =
        niOf pub2ref p + njOf pub2ref p + nkOf pub2ref p := rfl
    subst hqe
    constructor
    · rw [le_div_iff₀ hdq]
      have hle : -(disruptionDenom pub2ref p) ≤ niOf pub2ref p - njOf pub2ref p := by
        omega
      calc (-1 : ℚ) * ((disruptionDenom pub2ref p : Int) : ℚ)
          = ((-(disruptionDenom pub2ref p) : Int) : ℚ) := by push_cast; ring
        _ ≤ ((niOf pub2ref p - njOf pub2ref p : Int) : ℚ) := by exact_mod_cast hle
    · rw [div_le_one hdq]
      have hle : niOf pub2ref p - njOf pub2ref p ≤ disruptionDenom pub2ref p := by
        omega
      exact_mod_cast hle

/-- Witness for claim C5 at the concrete Scenario A table: the defined value 0
lies in [-1, 1]. -/
theorem claim_C5_witness : (-1 : ℚ) ≤ 0 ∧ (0 : ℚ) ≤ 1 :=
  (claim_C5_range [⟨1, 2, 0⟩, ⟨1, 3, 0⟩, ⟨4, 1, 0⟩, ⟨5, 1, 0⟩, ⟨4, 2, 0⟩, ⟨6, 3, 0⟩] 1
    (by decide)).2 0
    ((disruptionOne_eval [⟨1, 2, 0⟩, ⟨1, 3, 0⟩, ⟨4, 1, 0⟩, ⟨5, 1, 0⟩, ⟨4, 2, 0⟩, ⟨6, 3, 0⟩] 1
      0 4 (by decide) (by decide) (by decide) (by decide)).trans (by norm_num))

/-- Claim C2 counterexample: publication 3 is requested but has no citations,
so the driver filter drops it entirely — the output is empty and contains no
(3, none) row, contradicting "one output row for every requested focus
publication". -/
theorem claim_C2_counterexample :
    disruption_index [⟨1, 2, 0⟩] [3] = [] ∧
      ((3 : Nat), (none : Option ℚ)) ∉ disruption_index [⟨1, 2, 0⟩] [3] := by
  decide

/-- Claim C2 as amended: a requested focus publication with no citations is
dropped from the output, while one with citations but no references gets an
explicit null DisruptionIndex row, without aborting the batch. -/
theorem claim_C2_amended (pub2ref : List RefRow) (p : Nat) :
    (citersOf pub2ref p = [] → disruption_index pub2ref [p] = []) ∧
      (citersOf pub2ref p ≠ [] → refsOf pub2ref p = [] →
        disruption_index pub2ref [p] = [(p, none)]) := by
  constructor
  · intro h
    simp [disruption_index, List.isEmpty_iff, h]
  · intro h1 h2
    simp [disruption_index, List.isEmpty_iff, h1, disruptionOne, h2]

/-- Witness for the amended claim C2: publication 2 has a citer but no
references, and its row carries an explicit null. -/
theorem claim_C2_witness :
    disruption_index [⟨1, 2, 0⟩] [2] = [(2, none)] :=
  (claim_C2_amended [⟨1, 2, 0⟩] 2).2 (by decide) (by decide)

/-- Claim C3 counterexample: the faithful realization of Scenario A (focus 1
references 2 and 3; 4 and 5 cite 1; 4 cites 2 and 6 cites 3).  The focus
publication itself cites its references, so the reference-citer pool is
{1, 4, 6} and nk = 2, not 1 as the scenario expects; CD is still 0. -/
theorem claim_C3_counterexample :
    njOf [⟨1, 2, 0⟩, ⟨1, 3, 0⟩, ⟨4, 1, 0⟩, ⟨5, 1, 0⟩, ⟨4, 2, 0⟩, ⟨6, 3, 0⟩] 1 = 1 ∧
    niOf [⟨1, 2, 0⟩, ⟨1, 3, 0⟩, ⟨4, 1, 0⟩, ⟨5, 1, 0⟩, ⟨4, 2, 0⟩, ⟨6, 3, 0⟩] 1 = 1 ∧
    nkOf [⟨1, 2, 0⟩, ⟨1, 3, 0⟩, ⟨4, 1, 0⟩, ⟨5, 1, 0⟩, ⟨4, 2, 0⟩, ⟨6, 3, 0⟩] 1 ≠ 1 ∧
    nkOf [⟨1, 2, 0⟩, ⟨1, 3, 0⟩, ⟨4, 1, 0⟩, ⟨5, 1, 0⟩, ⟨4, 2, 0⟩, ⟨6, 3, 0⟩] 1 = 2 ∧
    disruptionOne [⟨1, 2, 0⟩, ⟨1, 3, 0⟩, ⟨4, 1, 0⟩, ⟨5, 1, 0⟩, ⟨4, 2, 0⟩, ⟨6, 3, 0⟩] 1 =
      some 0 := by
  refine ⟨by decide, by decide, by decide, by decide, ?_⟩
  exact (disruptionOne_eval [⟨1, 2, 0⟩, ⟨1, 3, 0⟩, ⟨4, 1, 0⟩, ⟨5, 1, 0⟩, ⟨4, 2, 0⟩, ⟨6, 3, 0⟩]
    1 0 4 (by decide) (by decide) (by decide) (by decide)).trans (by norm_num)

/-- Claim C3 as amended: on a table with no duplicate (citing, cited) pairs
and non-empty reference and citer sets, the computed value is exactly the
set-based CD formula of the spec (nj over distinct citers via the membership
map, ni = |C| - nj, nk = |pool| - nj); in Scenario A the pool necessarily also
contains the focus publication, giving nj = 1, ni = 1, nk = 2, CD = 0. -/
theorem claim_C3_formula (pub2ref : List RefRow) (p : Nat)
    (hnd : NoDupEdges pub2ref) (h1 : refsOf pub2ref p ≠ [])
    (h2 : citersOf pub2ref p ≠ []) :
    disruptionOne pub2ref p = some (cdSpecFormula pub2ref p) := by
  have hcd : (citersOf pub2ref p).dedup = citersOf pub2ref p :=
    List.dedup_eq_self.mpr (citersOf_nodup hnd)
  rw [disruptionOne, if_neg h1, if_neg h2]
  simp only [cdSpecFormula, cdSpecNi, cdSpecNj, cdSpecNk, niOf, njOf, nkOf,
    disruptionDenom, hcd]

/-- Witness for claim C3: on the Scenario A realization the code value equals
the spec formula, which evaluates to CD = 0. -/
theorem claim_C3_witness :
    disruptionOne [⟨1, 2, 0⟩, ⟨1, 3, 0⟩, ⟨4, 1, 0⟩, ⟨5, 1, 0⟩, ⟨4, 2, 0⟩, ⟨6, 3, 0⟩] 1 =
      some (cdSpecFormula [⟨1, 2, 0⟩, ⟨1, 3, 0⟩, ⟨4, 1, 0⟩, ⟨5, 1, 0⟩, ⟨4, 2, 0⟩, ⟨6, 3, 0⟩] 1) ∧
    cdSpecFormula [⟨1, 2, 0⟩, ⟨1, 3, 0⟩, ⟨4, 1, 0⟩, ⟨5, 1, 0⟩, ⟨4, 2, 0⟩, ⟨6, 3, 0⟩] 1 = 0 := by
  constructor
  · exact claim_C3_formula [⟨1, 2, 0⟩, ⟨1, 3, 0⟩, ⟨4, 1, 0⟩, ⟨5, 1, 0⟩, ⟨4, 2, 0⟩, ⟨6, 3, 0⟩] 1
      (by decide) (by decide) (by decide)
  · have ha : cdSpecNi [⟨1, 2, 0⟩, ⟨1, 3, 0⟩, ⟨4, 1, 0⟩, ⟨5, 1, 0⟩, ⟨4, 2, 0⟩, ⟨6, 3, 0⟩] 1 = 1 := by
      decide
    have hb : cdSpecNj [⟨1, 2, 0⟩, ⟨1, 3, 0⟩, ⟨4, 1, 0⟩, ⟨5, 1, 0⟩, ⟨4, 2, 0⟩, ⟨6, 3, 0⟩] 1 = 1 := by
      decide
    have hc : cdSpecNk [⟨1, 2, 0⟩, ⟨1, 3, 0⟩, ⟨4, 1, 0⟩, ⟨5, 1, 0⟩, ⟨4, 2, 0⟩, ⟨6, 3, 0⟩] 1 = 2 := by
      decide
    rw [cdSpecFormula, ha, hb, hc]
    norm_num

/-- Claim C1: the non-temporal batching loop of `field_citation_distance`
slices the same fixed row range `0..10**6` in every iteration, so on a table
of 10**6 + 2 rows the last row never contributes to the accumulator, refuting
equivalence with a single pass in which every row contributes exactly once. -/
theorem claim_C1_fixed_slice :
    staticBatchLimit + 1 ∈ List.range (staticBatchLimit + 2) ∧
    staticBatchLimit + 1 ∉ staticBatchProcessedRows (List.range (staticBatchLimit + 2)) ∧
    staticBatchProcessedRows (List.range (staticBatchLimit + 2)) ≠
      List.range (staticBatchLimit + 2) := by
  have hmem : staticBatchLimit + 1 ∈ List.range (staticBatchLimit + 2) :=
    List.mem_range.mpr (by omega)
  have hnot : staticBatchLimit + 1 ∉
      staticBatchProcessedRows (List.range (staticBatchLimit + 2)) := by
    intro hx
    unfold staticBatchProcessedRows at hx
    simp only [List.mem_flatMap, List.mem_range] at hx
    obtain ⟨i, -, hx⟩ := hx
    rw [List.take_range] at hx
    have := List.mem_range.mp hx
    omega
  refine ⟨hmem, hnot, fun h => hnot ?_⟩
  rw [h]
  exact hmem

/-- Claim C9: the shape validation of `raostriling_interdisciplinarity` is
unreachable for numpy ndarrays — `type(m) == np.array` is always False — so a
wrong-shaped ndarray (2, 2) against 3 fields raises no error, while the same
shape as a `np.matrix` does. -/
theorem claim_C9_shape_check_skipped :
    raoShapeCheckRaises false 0 3 (DistMatrixArg.ndarray [2, 2]) = false ∧
    raoShapeCheckRaises false 0 3 (DistMatrixArg.npmatrix [2, 2]) = true := by
  decide

/-! Helper lemmas for `credit_share`. -/

lemma sortedUnique_perm_dedup (l : List Nat) :
    List.Perm (sortedUnique l) l.dedup :=
  List.perm_insertionSort _ _

lemma mem_sortedUnique {a : Nat} {l : List Nat} : a ∈ sortedUnique l ↔ a ∈ l := by
  rw [(sortedUnique_perm_dedup l).mem_iff, List.mem_dedup]

lemma sortedUnique_eq_nil {l : List Nat} : sortedUnique l = [] ↔ l = [] := by
  constructor
  · intro h
    have hp := sortedUnique_perm_dedup l
    rw [h] at hp
    exact (List.dedup_eq_nil l).mp hp.symm.eq_nil
  · intro h
    rw [h]
    rfl

lemma sum_map_div (l : List ℚ) (s : ℚ) :
    (l.map (fun x => x / s)).sum = l.sum / s := by
  induction l with
  | nil => simp
  | cons x t ih => simp [ih, add_div]

lemma map_some_getD (l : List ℚ) :
    ((l.map (fun x => (some x : Option ℚ))).map (fun x => x.getD 0)) = l := by
  induction l with
  | nil => rfl
  | cons x t ih => simp [ih]

lemma citesPub_iff {pub2ref : List RefRow} {c i : Nat} :
    citesPub pub2ref c i = true ↔ ∃ e ∈ pub2ref, e.citing = c ∧ e.cited = i := by
  simp [citesPub, List.any_eq_true]

lemma citesPub_focus_iff_mem {pub2ref : List RefRow} {c focus : Nat} :
    citesPub pub2ref c focus = true ↔ c ∈ citersOf pub2ref focus := by
  rw [citesPub_iff, mem_citersOf]

lemma citersOf_ne_nil_of_cocited {pub2ref : List RefRow} {focus : Nat}
    (h : egoCocitedPubs pub2ref focus ≠ []) : citersOf pub2ref focus ≠ [] := by
  intro hc
  apply h
  have he : egoEdges pub2ref focus = [] := by
    rw [egoEdges, List.filter_eq_nil_iff]
    intro e _ hcp
    have hmem := citesPub_focus_iff_mem.mp hcp
    rw [hc] at hmem
    exact List.not_mem_nil _ hmem
  rw [egoCocitedPubs, he]
  rfl

lemma egoYears_ne_nil_of_cocited {pub2ref : List RefRow} {focus : Nat}
    (h : egoCocitedPubs pub2ref focus ≠ []) : egoYears pub2ref focus ≠ [] := by
  intro hnil
  apply h
  have hedges : egoEdges pub2ref focus = [] := by
    have hmap := sortedUnique_eq_nil.mp hnil
    exact List.map_eq_nil_iff.mp hmap
  rw [egoCocitedPubs, hedges]
  rfl

lemma focus_mem_egoCocited {pub2ref : List RefRow} {focus : Nat}
    (h : citersOf pub2ref focus ≠ []) : focus ∈ egoCocitedPubs pub2ref focus := by
  obtain ⟨c, hc⟩ := List.exists_mem_of_ne_nil _ h
  obtain ⟨e, he, hec, hed⟩ := mem_citersOf.mp hc
  rw [egoCocitedPubs, mem_sortedUnique]
  refine List.mem_map.mpr ⟨e, ?_, hed⟩
  rw [egoEdges, List.mem_filter]
  refine ⟨he, ?_⟩
  rw [citesPub_focus_iff_mem, hec]
  exact hc

lemma egoCiters_length_pos {pub2ref : List RefRow} {focus : Nat}
    (h : citersOf pub2ref focus ≠ []) : 0 < (egoCiters pub2ref focus).length := by
  rw [egoCiters]
  apply List.length_pos.mpr
  intro hnil
  exact h ((List.dedup_eq_nil _).mp hnil)

lemma creditAllocEntry_nonneg (pub2author : List (Nat × Nat)) (a q : Nat) :
    0 ≤ creditAllocEntry pub2author a q := by
  rw [creditAllocEntry]
  split
  · exact div_nonneg zero_le_one (Nat.cast_nonneg _)
  · exact le_refl 0

lemma creditAllocEntry_focus_pos {pub2author : List (Nat × Nat)} {focus a : Nat}
    (ha : a ∈ authorsOfPub pub2author focus) :
    0 < creditAllocEntry pub2author a focus := by
  rw [creditAllocEntry, if_pos ha]
  apply div_pos one_pos
  exact_mod_cast List.length_pos.mpr (List.ne_nil_of_mem ha)

lemma egoFlowStatic_nonneg (pub2ref : List RefRow) (focus q : Nat) :
    0 ≤ egoFlowStatic pub2ref focus q := by
  rw [egoFlowStatic]
  split
  · exact Nat.cast_nonneg _
  · exact Nat.cast_nonneg _

lemma egoFlowYear_nonneg (pub2ref : List RefRow) (focus y q : Nat) :
    0 ≤ egoFlowYear pub2ref focus y q := by
  rw [egoFlowYear]
  split
  · exact Nat.cast_nonneg _
  · exact Nat.cast_nonneg _

lemma egoFlowCumul_nonneg (pub2ref : List RefRow) (focus : Nat) (ys : List Nat)
    (q : Nat) : 0 ≤ egoFlowCumul pub2ref focus ys q := by
  rw [egoFlowCumul]
  apply List.sum_nonneg
  intro x hx
  obtain ⟨y, -, rfl⟩ := List.mem_map.mp hx
  exact egoFlowYear_nonneg _ _ _ _

lemma rawCreditStatic_pos {pub2ref : List RefRow} {pub2author : List (Nat × Nat)}
    {focus a : Nat} (ha : a ∈ authorsOfPub pub2author focus)
    (hne : egoCocitedPubs pub2ref focus ≠ []) :
    0 < rawCreditStatic pub2ref pub2author focus a := by
  have hc := citersOf_ne_nil_of_cocited hne
  have hfm := focus_mem_egoCocited hc
  have hterm : 0 < creditAllocEntry pub2author a focus *
      egoFlowStatic pub2ref focus focus := by
    apply mul_pos (creditAllocEntry_focus_pos ha)
    rw [egoFlowStatic, if_pos (by simp)]
    exact_mod_cast egoCiters_length_pos hc
  rw [rawCreditStatic]
  refine lt_of_lt_of_le hterm (List.single_le_sum ?_ _ ?_)
  · intro x hx
    obtain ⟨q, -, rfl⟩ := List.mem_map.mp hx
    exact mul_nonneg (creditAllocEntry_nonneg _ _ _) (egoFlowStatic_nonneg _ _ _)
  · exact List.mem_map_of_mem _ hfm

lemma rawCreditStatic_sum_pos {pub2ref : List RefRow} {pub2author : List (Nat × Nat)}
    {focus : Nat} (hk : authorsOfPub pub2author focus ≠ [])
    (hne : egoCocitedPubs pub2ref focus ≠ []) :
    0 < ((authorsOfPub pub2author focus).map
      (fun a => rawCreditStatic pub2ref pub2author focus a)).sum := by
  refine List.sum_pos _ ?_ (by simpa using hk)
  intro x hx
  obtain ⟨a, haa, rfl⟩ := List.mem_map.mp hx
  exact rawCreditStatic_pos haa hne

lemma rawCreditTemporal_pos {pub2ref : List RefRow} {pub2author : List (Nat × Nat)}
    {focus : Nat} {ys : List Nat} {a : Nat}
    (ha : a ∈ authorsOfPub pub2author focus)
    (hne : egoCocitedPubs pub2ref focus ≠ []) (hys : ys ≠ [])
    (hcy : ∀ y ∈ ys, focusCitersInYear pub2ref focus y ≠ []) :
    0 < rawCreditTemporal pub2ref pub2author focus ys a := by
  have hc := citersOf_ne_nil_of_cocited hne
  have hfm := focus_mem_egoCocited hc
  obtain ⟨y0, hy0⟩ := List.exists_mem_of_ne_nil _ hys
  have hflow : 0 < egoFlowCumul pub2ref focus ys focus := by
    have hterm : 0 < egoFlowYear pub2ref focus y0 focus := by
      rw [egoFlowYear, if_pos (by simp)]
      exact_mod_cast List.length_pos.mpr (hcy y0 hy0)
    rw [egoFlowCumul]
    refine lt_of_lt_of_le hterm (List.single_le_sum ?_ _ ?_)
    · intro x hx
      obtain ⟨y, -, rfl⟩ := List.mem_map.mp hx
      exact egoFlowYear_nonneg _ _ _ _
    · exact List.mem_map_of_mem _ hy0
  have hterm : 0 < creditAllocEntry pub2author a focus *
      egoFlowCumul pub2ref focus ys focus :=
    mul_pos (creditAllocEntry_focus_pos ha) hflow
  rw [rawCreditTemporal]
  refine lt_of_lt_of_le hterm (List.single_le_sum ?_ _ ?_)
  · intro x hx
    obtain ⟨q, -, rfl⟩ := List.mem_map.mp hx
    exact mul_nonneg (creditAllocEntry_nonneg _ _ _) (egoFlowCumul_nonneg _ _ _ _)
  · exact List.mem_map_of_mem _ hfm

lemma rawCreditTemporal_sum_pos {pub2ref : List RefRow} {pub2author : List (Nat × Nat)}
    {focus : Nat} {ys : List Nat} (hk : authorsOfPub pub2author focus ≠ [])
    (hne : egoCocitedPubs pub2ref focus ≠ []) (hys : ys ≠ [])
    (hcy : ∀ y ∈ ys, focusCitersInYear pub2ref focus y ≠ []) :
    0 < ((authorsOfPub pub2author focus).map
      (fun a => rawCreditTemporal pub2ref pub2author focus ys a)).sum := by
  refine List.sum_pos _ ?_ (by simpa using hk)
  intro x hx
  obtain ⟨a, haa, rfl⟩ := List.mem_map.mp hx
  exact rawCreditTemporal_pos haa hne hys hcy

lemma creditColumn_true (pub2ref : List RefRow) (pub2author : List (Nat × Nat))
    (focus : Nat) (ys : List Nat) :
    creditColumn pub2ref pub2author focus true ys =
      ((authorsOfPub pub2author focus).map
        (fun a => rawCreditTemporal pub2ref pub2author focus ys a)).map
        (fun x => x / ((authorsOfPub pub2author focus).map
          (fun a => rawCreditTemporal pub2ref pub2author focus ys a)).sum) := by
  simp [creditColumn]

lemma scenarioB_raw1 :
    rawCreditStatic scenarioB_pub2ref scenarioB_pub2author 10 1 = 7 / 2 := by
  have hco : egoCocitedPubs scenarioB_pub2ref 10 = [10, 20] := by decide
  have hfa : authorsOfPub scenarioB_pub2author 10 = [1, 2] := by decide
  have hq : authorsOfPub scenarioB_pub2author 20 = [1, 3] := by decide
  have hn : (egoCiters scenarioB_pub2ref 10).length = 5 := by decide
  have hw : egoCociteWeight scenarioB_pub2ref 10 10 20 = 2 := by decide
  rw [rawCreditStatic, hco]
  simp only [List.map_cons, List.map_nil, List.sum_cons, List.sum_nil]
  norm_num [creditAllocEntry, egoFlowStatic, hfa, hq, hn, hw]

lemma scenarioB_raw2 :
    rawCreditStatic scenarioB_pub2ref scenarioB_pub2author 10 2 = 5 / 2 := by
  have hco : egoCocitedPubs scenarioB_pub2ref 10 = [10, 20] := by decide
  have hfa : authorsOfPub scenarioB_pub2author 10 = [1, 2] := by decide
  have hq : authorsOfPub scenarioB_pub2author 20 = [1, 3] := by decide
  have hn : (egoCiters scenarioB_pub2ref 10).length = 5 := by decide
  have hw : egoCociteWeight scenarioB_pub2ref 10 10 20 = 2 := by decide
  rw [rawCreditStatic, hco]
  simp only [List.map_cons, List.map_nil, List.sum_cons, List.sum_nil]
  norm_num [creditAllocEntry, egoFlowStatic, hfa, hq, hn, hw]

lemma scenarioB_static_raw_eval :
    credit_share_static 10 scenarioB_pub2ref scenarioB_pub2author false =
      some ([some (7 / 2), some (5 / 2)], [1, 2]) := by
  have hfa : authorsOfPub scenarioB_pub2author 10 = [1, 2] := by decide
  have hco : egoCocitedPubs scenarioB_pub2ref 10 = [10, 20] := by decide
  simp only [credit_share_static, hfa, hco]
  norm_num [scenarioB_raw1, scenarioB_raw2]

lemma scenarioB_static_normed_eval :
    credit_share_static 10 scenarioB_pub2ref scenarioB_pub2author true =
      some ([some (7 / 12), some (5 / 12)], [1, 2]) := by
  have hfa : authorsOfPub scenarioB_pub2author 10 = [1, 2] := by decide
  have hco : egoCocitedPubs scenarioB_pub2ref 10 = [10, 20] := by decide
  simp only [credit_share_static, hfa, hco]
  norm_num [scenarioB_raw1, scenarioB_raw2]

/-! Theorems for the claims about `credit_share`. -/

/-- Claim C6: a single-author focus publication gets credit exactly 1.0 in
static mode and a vector of exactly 1.0 per citing year in temporal mode,
with no allocation computation and independently of `normed`. -/
theorem claim_C6_single_author (pub2ref : List RefRow)
    (pub2author : List (Nat × Nat)) (focus a : Nat)
    (h : authorsOfPub pub2author focus = [a]) (normed : Bool) :
    credit_share_static focus pub2ref pub2author normed = some ([some 1], [a]) ∧
    credit_share_temporal focus pub2ref pub2author normed =
      some ((focusCitationYears pub2ref focus).map (fun _ => [some 1]), [a],
        focusCitationYears pub2ref focus) := by
  constructor
  · simp [credit_share_static, h]
  · simp [credit_share_temporal, h]

/-- Witness for claim C6: publication 7 with single author 42 and one citation
from year 1999. -/
theorem claim_C6_witness :
    credit_share_static 7 [⟨9, 7, 1999⟩] [(7, 42)] false = some ([some 1], [42]) ∧
    credit_share_temporal 7 [⟨9, 7, 1999⟩] [(7, 42)] false =
      some ([[some 1]], [42], [1999]) := by
  have h := claim_C6_single_author [⟨9, 7, 1999⟩] [(7, 42)] 7 42 (by decide) false
  refine ⟨h.1, h.2.trans ?_⟩
  have hy : focusCitationYears [⟨9, 7, 1999⟩] 7 = [1999] := by decide
  rw [hy]
  rfl

/-- Claim C7: the Scenario B realization — focus 10 with authors {1, 2},
co-cited 20 with authors {1, 3}, five distinct citers of the focus, and
co-citation weight 2 — yields raw credits 3.5 and 2.5, and normalized shares
7/12 and 5/12. -/
theorem claim_C7_scenarioB :
    credit_share_static 10 scenarioB_pub2ref scenarioB_pub2author false =
      some ([some (7 / 2), some (5 / 2)], [1, 2]) ∧
    credit_share_static 10 scenarioB_pub2ref scenarioB_pub2author true =
      some ([some (7 / 12), some (5 / 12)], [1, 2]) :=
  ⟨scenarioB_static_raw_eval, scenarioB_static_normed_eval⟩

/-- Claim C10: a focus publication with no author rows falls through both the
k > 1 and k = 1 branches of `credit_share`, returning `None` rather than a
(credit vector, author map) pair, in both static and temporal mode. -/
theorem claim_C10_no_author_none (pub2ref : List RefRow)
    (pub2author : List (Nat × Nat)) (focus : Nat)
    (h : authorsOfPub pub2author focus = []) (normed : Bool) :
    credit_share_static focus pub2ref pub2author normed = none ∧
    credit_share_temporal focus pub2ref pub2author normed = none := by
  constructor
  · simp [credit_share_static, h]
  · simp [credit_share_temporal, h]

/-- Witness for claim C10: an empty author table. -/
theorem claim_C10_witness :
    credit_share_static 7 [⟨9, 7, 1999⟩] [] false = none ∧
    credit_share_temporal 7 [⟨9, 7, 1999⟩] [] false = none :=
  claim_C10_no_author_none [⟨9, 7, 1999⟩] [] 7 (by decide) false

/-- Claim C8: whenever `credit_share` with `normed` produces a defined result,
the normalization denominator (the sum of the raw credits, which is the
`normed=False` output) is non-zero and the normalized shares over the focus
authors sum to exactly 1 — per year-column in temporal mode. -/
theorem claim_C8_normed_sum (pub2ref : List RefRow)
    (pub2author : List (Nat × Nat)) (focus : Nat) :
    (∀ v amap, credit_share_static focus pub2ref pub2author true = some (v, amap) →
      (∀ x ∈ v, x.isSome) → (v.map (fun x => x.getD 0)).sum = 1) ∧
    (∀ v amap, credit_share_static focus pub2ref pub2author false = some (v, amap) →
      (∀ x ∈ v, x.isSome) → (v.map (fun x => x.getD 0)).sum ≠ 0) ∧
    (∀ cols amap ys, credit_share_temporal focus pub2ref pub2author true =
        some (cols, amap, ys) →
      (∀ col ∈ cols, ∀ x ∈ col, x.isSome) →
      ∀ col ∈ cols, (col.map (fun x => x.getD 0)).sum = 1) := by
  refine ⟨?_, ?_, ?_⟩
  · intro v amap hv hsome
    simp only [credit_share_static] at hv
    by_cases hk : 1 < (authorsOfPub pub2author focus).length
    · rw [if_pos hk] at hv
      by_cases hcc : 0 < (egoCocitedPubs pub2ref focus).length
      · rw [if_pos hcc] at hv
        simp only [if_true, Option.some.injEq, Prod.mk.injEq] at hv
        obtain ⟨hX, -⟩ := hv
        subst hX
        rw [map_some_getD, sum_map_div, div_self]
        exact ne_of_gt (rawCreditStatic_sum_pos
          (List.length_pos.mp (by omega)) (List.length_pos.mp hcc))
      · rw [if_neg hcc] at hv
        simp only [Option.some.injEq, Prod.mk.injEq] at hv
        obtain ⟨hX, -⟩ := hv
        subst hX
        exfalso
        have hfa : authorsOfPub pub2author focus ≠ [] :=
          List.length_pos.mp (by omega)
        obtain ⟨a, haa⟩ := List.exists_mem_of_ne_nil _ hfa
        have hn : (none : Option ℚ) ∈
            (authorsOfPub pub2author focus).map (fun _ => (none : Option ℚ)) :=
          List.mem_map.mpr ⟨a, haa, rfl⟩
        have := hsome none hn
        simp at this
    · rw [if_neg hk] at hv
      by_cases h1 : (authorsOfPub pub2author focus).length = 1
      · rw [if_pos h1] at hv
        simp only [Option.some.injEq, Prod.mk.injEq] at hv
        obtain ⟨hX, -⟩ := hv
        subst hX
        simp
      · rw [if_neg h1] at hv
        simp at hv
  · intro v amap hv hsome
    simp only [credit_share_static] at hv
    by_cases hk : 1 < (authorsOfPub pub2author focus).length
    · rw [if_pos hk] at hv
      by_cases hcc : 0 < (egoCocitedPubs pub2ref focus).length
      · rw [if_pos hcc] at hv
        simp only [Bool.false_eq_true, if_false, Option.some.injEq,
          Prod.mk.injEq] at hv
        obtain ⟨hX, -⟩ := hv
        subst hX
        rw [map_some_getD]
        exact ne_of_gt (rawCreditStatic_sum_pos
          (List.length_pos.mp (by omega)) (List.length_pos.mp hcc))
      · rw [if_neg hcc] at hv
        simp only [Option.some.injEq, Prod.mk.injEq] at hv
        obtain ⟨hX, -⟩ := hv
        subst hX
        exfalso
        have hfa : authorsOfPub pub2author focus ≠ [] :=
          List.length_pos.mp (by omega)
        obtain ⟨a, haa⟩ := List.exists_mem_of_ne_nil _ hfa
        have hn : (none : Option ℚ) ∈
            (authorsOfPub pub2author focus).map (fun _ => (none : Option ℚ)) :=
          List.mem_map.mpr ⟨a, haa, rfl⟩
        have := hsome none hn
        simp at this
    · rw [if_neg hk] at hv
      by_cases h1 : (authorsOfPub pub2author focus).length = 1
      · rw [if_pos h1] at hv
        simp only [Option.some.injEq, Prod.mk.injEq] at hv
        obtain ⟨hX, -⟩ := hv
        subst hX
        simp
      · rw [if_neg h1] at hv
        simp at hv
  · intro cols amap ys hv hsome col hcol
    simp only [credit_share_temporal] at hv
    by_cases hk : 1 < (authorsOfPub pub2author focus).length
    · rw [if_pos hk] at hv
      by_cases hcc : 0 < (egoCocitedPubs pub2ref focus).length
      · rw [if_pos hcc] at hv
        by_cases hguard : (egoYears pub2ref focus).all
            (fun y => !(focusCitersInYear pub2ref focus y).isEmpty)
        · rw [if_pos hguard] at hv
          simp only [Option.some.injEq, Prod.mk.injEq] at hv
          obtain ⟨hX, -, -⟩ := hv
          subst hX
          obtain ⟨iy, -, hcoleq⟩ := List.mem_map.mp hcol
          subst hcoleq
          rw [creditColumn_true, map_some_getD, sum_map_div, div_self]
          have hy := egoYears_ne_nil_of_cocited (List.length_pos.mp hcc)
          have hpre : (egoYears pub2ref focus).take (iy + 1) ≠ [] := by
            apply List.length_pos.mp
            rw [List.length_take]
            have := List.length_pos.mpr hy
            omega
          have hcy : ∀ y ∈ (egoYears pub2ref focus).take (iy + 1),
              focusCitersInYear pub2ref focus y ≠ [] := by
            intro y hyy
            have hy2 : y ∈ egoYears pub2ref focus := List.mem_of_mem_take hyy
            have hall := List.all_eq_true.mp hguard y hy2
            simp only [Bool.not_eq_true'] at hall
            intro hnil
            rw [hnil] at hall
            simp at hall
          exact ne_of_gt (rawCreditTemporal_sum_pos
            (List.length_pos.mp (by omega)) (List.length_pos.mp hcc) hpre hcy)
        · rw [if_neg hguard] at hv
          simp at hv
      · rw [if_neg hcc] at hv
        simp only [Option.some.injEq, Prod.mk.injEq] at hv
        obtain ⟨hX, -, -⟩ := hv
        subst hX
        exfalso
        obtain ⟨y, -, hcoleq⟩ := List.mem_map.mp hcol
        have hfa : authorsOfPub pub2author focus ≠ [] :=
          List.length_pos.mp (by omega)
        obtain ⟨a, haa⟩ := List.exists_mem_of_ne_nil _ hfa
        have hn : (none : Option ℚ) ∈ col := by
          rw [← hcoleq]
          exact List.mem_map.mpr ⟨a, haa, rfl⟩
        have := hsome col hcol none hn
        simp at this
    · rw [if_neg hk] at hv
      by_cases h1 : (authorsOfPub pub2author focus).length = 1
      · rw [if_pos h1] at hv
        simp only [Option.some.injEq, Prod.mk.injEq] at hv
        obtain ⟨hX, -, -⟩ := hv
        subst hX
        obtain ⟨y, -, hcoleq⟩ := List.mem_map.mp hcol
        rw [← hcoleq]
        simp
      · rw [if_neg h1] at hv
        simp at hv

/-- Witness for claim C8: the normalized Scenario B shares 7/12 and 5/12 sum
to 1. -/
theorem claim_C8_witness :
    (([some ((7 : ℚ) / 12), some (5 / 12)].map (fun x => x.getD 0)).sum = 1) :=
  (claim_C8_normed_sum scenarioB_pub2ref scenarioB_pub2author 10).1
    [some (7 / 12), some (5 / 12)] [1, 2] scenarioB_static_normed_eval
    (by decide)
